import Mathlib

/-!
# ITE IT87x Super I/O sensor driver (`ITEIT87x/ITEIT87x.cpp`)

A shallow embedding of the driver class `IT87x`: chip detection (`probePort`), the register
access helpers and the three sensor readers, followed by theorems about them.

* Port I/O and the calls into the base class `SuperIOMonitor` are recorded, in order, in a
  history (`IT87x.trace`).  What the hardware answers is given by a `Host`: every answer may
  depend on the whole history, so no assumption is made on how the chip behaves.
* The constants of `ITEIT87x.h` and `SuperIOMonitor.h` are collected in a `Header`, which every
  function takes as a parameter.
* Single-precision arithmetic is modelled exactly: a finite `float` is the rational number it
  denotes, an operation computes the exact result and rounds it to the nearest binary32 value
  (ties to even), and `none` stands for a result that is not a finite number.
-/

namespace ITEIT87x

/-! ## Single-precision arithmetic -/

/-- Nearest integer to `x`, a tie going to the even neighbour. -/
def roundTiesEven (x : ℚ) : ℤ :=
  if x - ⌊x⌋ < 1 / 2 then ⌊x⌋
  else if 1 / 2 < x - ⌊x⌋ then ⌊x⌋ + 1
  else if ⌊x⌋ % 2 = 0 then ⌊x⌋
  else ⌊x⌋ + 1

/-- Rounding of an exact result to binary32 (24-bit significand, least normal exponent -126,
round to nearest, ties to even); `none` when the rounded value is beyond the finite range. -/
def f32round (x : ℚ) : Option ℚ :=
  let e : ℤ := max (Int.log 2 |x|) (-126)
  let ulp : ℚ := (2 : ℚ) ^ (e - 23)
  let r : ℚ := (roundTiesEven (x / ulp) : ℚ) * ulp
  if |r| < (2 : ℚ) ^ (128 : ℕ) then some r else none

/-- Conversion of an integer to `float`: the cast `(float)n`. -/
def f32ofInt (n : ℤ) : Option ℚ :=
  f32round n

/-- Division of two finite `float`s; a zero divisor gives an infinity or a NaN. -/
def f32div (a b : ℚ) : Option ℚ :=
  if b = 0 then none else f32round (a / b)

/-- Conversion of a finite `float` to `SInt32`: the fractional part is discarded (truncation
toward zero); the conversion is undefined when the truncated value is out of range. -/
def toSInt32 (x : ℚ) : Option ℤ :=
  let t : ℤ := if 0 ≤ x then ⌊x⌋ else ⌈x⌉
  if -(2 : ℤ) ^ (31 : ℕ) ≤ t ∧ t < (2 : ℤ) ^ (31 : ℕ) then some t else none

/-! ## Constants, hardware and driver state -/

/-- The constants the driver takes from `ITEIT87x.h` and `SuperIOMonitor.h`. -/
structure Header where
  ITE_ADDRESS_REGISTER_OFFSET : Nat
  ITE_DATA_REGISTER_OFFSET : Nat
  ITE_TEMPERATURE_BASE_REG : Nat
  ITE_VOLTAGE_BASE_REG : Nat
  ITE_FAN_TACHOMETER_REG : Fin 5 → Nat
  ITE_FAN_TACHOMETER_EXT_REG : Fin 5 → Nat
  ITE_FAN_TACHOMETER_DIVISOR_REGISTER : Nat
  ITE_ENVIRONMENT_CONTROLLER_LDN : Nat
  ITE_VENDOR_ID_REGISTER : Nat
  ITE_VENDOR_ID : Nat
  ITE_CONFIGURATION_REGISTER : Nat
  ITE_VERSION_REGISTER : Nat
  SUPERIO_CHIP_ID_REGISTER : Nat
  SUPERIO_CONFIGURATION_CONTROL_REGISTER : Nat
  IT8512F : Nat
  IT8712F : Nat
  IT8716F : Nat
  IT8718F : Nat
  IT8720F : Nat
  IT8721F : Nat
  IT8726F : Nat
  IT8728F : Nat
  IT8752F : Nat
  IT8772E : Nat

/-- One step of the driver that is visible outside of it. -/
inductive Event where
  | outb (port : Nat) (data : Nat)
  | inb (port : Nat) (data : Nat)
  | listenPortWord (reg : Nat) (word : Nat)
  | selectLogicalDevice (ldn : Nat)
  | getLogicalDeviceAddress (ok : Bool) (address : Nat)
  | IOSleep (ms : Nat)
  | WarningLog (format : String) (args : List Nat)
  deriving DecidableEq, Repr

/-- Whether a step addresses the chip (port I/O or a base-class call that does port I/O). -/
def Event.touchesChip : Event → Bool
  | .outb _ _ => true
  | .inb _ _ => true
  | .listenPortWord _ _ => true
  | .selectLogicalDevice _ => true
  | .getLogicalDeviceAddress _ _ => true
  | .IOSleep _ => false
  | .WarningLog _ _ => false

/-- The hardware and the base class `SuperIOMonitor`, as far as the driver observes them: the
answer to each request, given everything that happened before it. -/
structure Host where
  /-- byte delivered by `inb(port)` -/
  inb : List Event → Nat → Nat
  /-- word delivered by `SuperIOMonitor::listenPortWord(reg)` -/
  listenPortWord : List Event → Nat → Nat
  /-- result of `SuperIOMonitor::getLogicalDeviceAddress()` and the `address` it leaves -/
  getLogicalDeviceAddress : List Event → Bool × Nat

/-- The fields of an `IT87x` instance, and the history of its steps. -/
structure IT87x where
  address : Nat
  registerPort : Nat
  valuePort : Nat
  model : Nat
  /-- the gains have an integer type: `readVoltage` casts their product to `float` -/
  voltageGain : ℤ
  voltageSpecificGain : Fin 9 → ℤ
  has16bitFanCounter : Bool
  trace : List Event

/-! ## Port I/O and base-class calls -/

/-- The instruction `outb(port, data)`: a 16-bit port, an 8-bit datum. -/
def outb (s : IT87x) (port data : Nat) : IT87x :=
  { s with trace := s.trace ++ [Event.outb (port % 65536) (data % 256)] }

/-- The instruction `inb(port)`. -/
def inb (host : Host) (s : IT87x) (port : Nat) : Nat × IT87x :=
  let v := host.inb s.trace (port % 65536) % 256
  (v, { s with trace := s.trace ++ [Event.inb (port % 65536) v] })

/-- The call `listenPortWord(reg)` of the base class, returning a `UInt16`. -/
def listenPortWord (host : Host) (s : IT87x) (reg : Nat) : Nat × IT87x :=
  let w := host.listenPortWord s.trace (reg % 256) % 65536
  (w, { s with trace := s.trace ++ [Event.listenPortWord (reg % 256) w] })

/-- The call `selectLogicalDevice(ldn)` of the base class. -/
def selectLogicalDevice (s : IT87x) (ldn : Nat) : IT87x :=
  { s with trace := s.trace ++ [Event.selectLogicalDevice (ldn % 256)] }

/-- The call `getLogicalDeviceAddress()` of the base class, which sets `address`. -/
def getLogicalDeviceAddress (host : Host) (s : IT87x) : Bool × IT87x :=
  let r := host.getLogicalDeviceAddress s.trace
  (r.1, { s with address := r.2 % 65536,
                 trace := s.trace ++ [Event.getLogicalDeviceAddress r.1 (r.2 % 65536)] })

/-- The call `IOSleep(ms)`. -/
def IOSleep (s : IT87x) (ms : Nat) : IT87x :=
  { s with trace := s.trace ++ [Event.IOSleep ms] }

/-- The statement `WarningLog(format, args...)`. -/
def WarningLog (s : IT87x) (format : String) (args : List Nat) : IT87x :=
  { s with trace := s.trace ++ [Event.WarningLog format args] }

/-! ## The driver -/

/-- Method `IT87x::readByte`: select the register, read the data port twice, return the first
byte. -/
def readByte (H : Header) (host : Host) (s : IT87x) (reg : Nat) : Nat × IT87x :=
  let s1 := outb s (s.address + H.ITE_ADDRESS_REGISTER_OFFSET) (reg % 256)
  let value := inb host s1 (s.address + H.ITE_DATA_REGISTER_OFFSET)
  let check := inb host value.2 (s.address + H.ITE_DATA_REGISTER_OFFSET)
  (value.1, check.2)

/-- Method `IT87x::writeByte`. -/
def writeByte (H : Header) (s : IT87x) (reg value : Nat) : IT87x :=
  let s1 := outb s (s.address + H.ITE_ADDRESS_REGISTER_OFFSET) (reg % 256)
  outb s1 (s.address + H.ITE_DATA_REGISTER_OFFSET) (value % 256)

/-- Method `IT87x::temperatureSensorsLimit`. -/
def temperatureSensorsLimit : Nat := 3

/-- Method `IT87x::voltageSensorsLimit`. -/
def voltageSensorsLimit : Nat := 9

/-- Method `IT87x::tachometerSensorsLimit`. -/
def tachometerSensorsLimit : Nat := 5

/-- Method `IT87x::readTemperature`: the `UInt8` that `readByte` returns, converted to `SInt32`. -/
def readTemperature (H : Header) (host : Host) (s : IT87x) (index : Nat) : ℤ × IT87x :=
  let b := readByte H host s (H.ITE_TEMPERATURE_BASE_REG + index)
  ((b.1 : ℤ), b.2)

/-- Method `IT87x::readVoltage`; `none` for an index outside of `voltageSpecificGain`, or when the
`float` result is not a finite number. -/
def readVoltage (H : Header) (host : Host) (s : IT87x) (index : Nat) : Option ℚ × IT87x :=
  if h : index < 9 then
    let raw := readByte H host s (H.ITE_VOLTAGE_BASE_REG + index)
    ((f32ofInt ((raw.1 : ℤ) * s.voltageGain * s.voltageSpecificGain ⟨index, h⟩)).bind
        (fun p => (f32round 1000).bind (fun k => f32div p k)),
      raw.2)
  else (none, s)

/-- Method `IT87x::readTachometer`; `none` for an index outside of the register tables, or when the
conversion of the `float` result to `SInt32` is undefined. -/
def readTachometer (H : Header) (host : Host) (s : IT87x) (index : Nat) : Option ℤ × IT87x :=
  if h : index < 5 then
    if s.has16bitFanCounter then
      let lo := readByte H host s (H.ITE_FAN_TACHOMETER_REG ⟨index, h⟩)
      let hi := readByte H host lo.2 (H.ITE_FAN_TACHOMETER_EXT_REG ⟨index, h⟩)
      let value : Nat := lo.1 ||| (hi.1 <<< 8)
      let r : Option ℚ :=
        if 0x3f < value ∧ value < 0xffff then
          (f32ofInt (1350000 + (value : ℤ))).bind
            (fun n => (f32ofInt ((value : ℤ) * 2)).bind (fun d => f32div n d))
        else f32ofInt 0
      (r.bind toSInt32, hi.2)
    else
      let cnt := readByte H host s (H.ITE_FAN_TACHOMETER_REG ⟨index, h⟩)
      let value : Nat := cnt.1
      let dv : Nat × IT87x :=
        if index < 2 then
          let d := readByte H host cnt.2 H.ITE_FAN_TACHOMETER_DIVISOR_REGISTER
          (1 <<< ((d.1 >>> (3 * index)) &&& 0x7), d.2)
        else (2, cnt.2)
      let r : Option ℚ :=
        if 0 < value ∧ value < 0xff then
          (f32round 1350000).bind
            (fun n => (f32ofInt ((value : ℤ) * (dv.1 : ℤ))).bind (fun d => f32div n d))
        else f32ofInt 0
      (r.bind toSInt32, dv.2)
  else (none, s)

/-- Method `IT87x::enter`. -/
def enter (s : IT87x) : IT87x :=
  outb (outb (outb (outb s s.registerPort 0x87) s.registerPort 0x01) s.registerPort 0x55)
    s.registerPort 0x55

/-- Method `IT87x::exit`. -/
def exit (H : Header) (s : IT87x) : IT87x :=
  outb (outb s s.registerPort H.SUPERIO_CONFIGURATION_CONTROL_REGISTER) s.valuePort 0x02

/-- The case labels of the `switch` in `probePort`. -/
def supported (H : Header) : List Nat :=
  [H.IT8512F, H.IT8712F, H.IT8716F, H.IT8718F, H.IT8720F, H.IT8721F, H.IT8726F, H.IT8728F,
    H.IT8752F, H.IT8772E]

/-- The loop `for (int i = 0; i < 9; i++) voltageSpecificGain[i] = 1;`. -/
def resetSpecificGain (g : Fin 9 → ℤ) : Fin 9 → ℤ :=
  (List.finRange 9).foldl (fun acc i => Function.update acc i 1) g

/-- Method `IT87x::probePort`. -/
def probePort (H : Header) (host : Host) (s : IT87x) : Bool × IT87x :=
  let w := listenPortWord host s H.SUPERIO_CHIP_ID_REGISTER
  let id := w.1
  if id = 0 ∨ id = 0xffff then (false, w.2)
  else if id ∈ supported H then
    let s1 := { w.2 with model := id }
    let s2 := selectLogicalDevice s1 H.ITE_ENVIRONMENT_CONTROLLER_LDN
    let s3 := IOSleep s2 50
    let a := getLogicalDeviceAddress host s3
    if a.1 = false then
      (false, WarningLog a.2 "can't get monitoring logical device address" [])
    else
      let s4 := IOSleep a.2 50
      let vendor := readByte H host s4 H.ITE_VENDOR_ID_REGISTER
      if vendor.1 ≠ H.ITE_VENDOR_ID then
        (false, WarningLog vendor.2 "invalid vendor ID=0x%x" [vendor.1])
      else
        let cfg := readByte H host vendor.2 H.ITE_CONFIGURATION_REGISTER
        if cfg.1 &&& 0x10 = 0 then
          (false, WarningLog cfg.2 "invalid configuration register value" [])
        else
          let s5 : IT87x :=
            if id = H.IT8721F ∨ id = H.IT8728F ∨ id = H.IT8772E then
              { cfg.2 with voltageGain := 12 }
            else { cfg.2 with voltageGain := 16 }
          let v := readByte H host s5 H.ITE_VERSION_REGISTER
          let version := v.1 &&& 0x0F
          let s6 :=
            { v.2 with
              has16bitFanCounter := !(decide (id = H.IT8712F) && decide (version < 8)) }
          (true, { s6 with voltageSpecificGain := resetSpecificGain s6.voltageSpecificGain })
  else (false, WarningLog w.2 "found unsupported chip ID=0x%x" [id])

/-- Method `IT87x::getPortsCount`. -/
def getPortsCount : Nat := 1

/-- Method `IT87x::getModelName`. -/
def getModelName (H : Header) (s : IT87x) : String :=
  if s.model = H.IT8512F then "IT8512F"
  else if s.model = H.IT8712F then "IT8712F"
  else if s.model = H.IT8716F then "IT8716F"
  else if s.model = H.IT8718F then "IT8718F"
  else if s.model = H.IT8720F then "IT8720F"
  else if s.model = H.IT8721F then "IT8721F"
  else if s.model = H.IT8726F then "IT8726F"
  else if s.model = H.IT8728F then "IT8728F"
  else if s.model = H.IT8752F then "IT8752F"
  else if s.model = H.IT8772E then "IT8772E"
  else "unknown"

/-- Method `IT87x::getVendorName`. -/
def getVendorName : String := "ITE"

/-! ## Observation points of `probePort`

The values `probePort` obtains from the chip, each at the point of the run where the code
obtains it (`probePort_stages` below relates them to `probePort`). -/

/-- The identifier word read by `probePort`. -/
def probeId (H : Header) (host : Host) (s : IT87x) : Nat :=
  (listenPortWord host s H.SUPERIO_CHIP_ID_REGISTER).1

/-- The driver when `probePort` calls `getLogicalDeviceAddress`: the identifier is recorded,
the environment controller is selected and 50 ms have passed. -/
def probeSelected (H : Header) (host : Host) (s : IT87x) : IT87x :=
  IOSleep
    (selectLogicalDevice
      { (listenPortWord host s H.SUPERIO_CHIP_ID_REGISTER).2 with model := probeId H host s }
      H.ITE_ENVIRONMENT_CONTROLLER_LDN)
    50

/-- The result of `getLogicalDeviceAddress()` in `probePort`. -/
def probeAddress (H : Header) (host : Host) (s : IT87x) : Bool × IT87x :=
  getLogicalDeviceAddress host (probeSelected H host s)

/-- The byte `probePort` reads from the vendor-ID register. -/
def probeVendor (H : Header) (host : Host) (s : IT87x) : Nat × IT87x :=
  readByte H host (IOSleep (probeAddress H host s).2 50) H.ITE_VENDOR_ID_REGISTER

/-- The byte `probePort` reads from the configuration register. -/
def probeConfig (H : Header) (host : Host) (s : IT87x) : Nat × IT87x :=
  readByte H host (probeVendor H host s).2 H.ITE_CONFIGURATION_REGISTER

/-- The byte `probePort` reads from the version register. -/
def probeVersion (H : Header) (host : Host) (s : IT87x) : Nat × IT87x :=
  readByte H host (probeConfig H host s).2 H.ITE_VERSION_REGISTER

/-! ## Concrete instances -/

/-- A header instance for concrete evaluations: each identifier is the chip name read as a
hexadecimal number, the registers follow the map of the IT87 environment controller. -/
def it87 : Header :=
  { ITE_ADDRESS_REGISTER_OFFSET := 0x05
    ITE_DATA_REGISTER_OFFSET := 0x06
    ITE_TEMPERATURE_BASE_REG := 0x29
    ITE_VOLTAGE_BASE_REG := 0x20
    ITE_FAN_TACHOMETER_REG := ![0x0d, 0x0e, 0x0f, 0x80, 0x82]
    ITE_FAN_TACHOMETER_EXT_REG := ![0x18, 0x19, 0x1a, 0x81, 0x83]
    ITE_FAN_TACHOMETER_DIVISOR_REGISTER := 0x0B
    ITE_ENVIRONMENT_CONTROLLER_LDN := 0x04
    ITE_VENDOR_ID_REGISTER := 0x58
    ITE_VENDOR_ID := 0x90
    ITE_CONFIGURATION_REGISTER := 0x00
    ITE_VERSION_REGISTER := 0x22
    SUPERIO_CHIP_ID_REGISTER := 0x20
    SUPERIO_CONFIGURATION_CONTROL_REGISTER := 0x02
    IT8512F := 0x8512
    IT8712F := 0x8712
    IT8716F := 0x8716
    IT8718F := 0x8718
    IT8720F := 0x8720
    IT8721F := 0x8721
    IT8726F := 0x8726
    IT8728F := 0x8728
    IT8752F := 0x8752
    IT8772E := 0x8772 }

/-- The register selected on the address port: the datum of the latest `outb`. -/
def selectedReg (t : List Event) : Nat :=
  t.foldl (fun r e => match e with
    | Event.outb _ d => d
    | _ => r) 0

/-- A chip that answers as a register file: identifier `id`, logical-device address `base`
(available when `ok`), environment-controller registers `regs`. -/
def chip (id : Nat) (ok : Bool) (base : Nat) (regs : Nat → Nat) : Host :=
  { inb := fun t _ => regs (selectedReg t)
    listenPortWord := fun _ _ => id
    getLogicalDeviceAddress := fun _ => (ok, base) }

/-- Register contents given as a table; registers not listed hold 0. -/
def regfile (l : List (Nat × Nat)) : Nat → Nat :=
  fun r => (l.lookup r).getD 0

/-- A driver instance that has not probed yet. -/
def fresh : IT87x :=
  { address := 0
    registerPort := 0x2e
    valuePort := 0x2f
    model := 0
    voltageGain := 0
    voltageSpecificGain := fun _ => 0
    has16bitFanCounter := false
    trace := [] }

/-- An IT8728F that passes every check of `probePort`; its first voltage register holds 200
and its first temperature register 0xFF. -/
def it8728 : Host :=
  chip 0x8728 true 0x290 (regfile [(0x58, 0x90), (0x00, 0x10), (0x22, 0x01), (0x20, 200),
    (0x29, 0xFF)])

/-- The driver after probing `it8728`. -/
def probed : IT87x :=
  (probePort it87 it8728 fresh).2

/-- An IT8712F whose logical-device address cannot be obtained. -/
def it8712NoAddress : Host :=
  chip 0x8712 false 0 (regfile [])

/-! ## Facts about the rounding -/

theorem floor_le_roundTiesEven (x : ℚ) : ⌊x⌋ ≤ roundTiesEven x := by
  unfold roundTiesEven
  split_ifs <;> omega

theorem roundTiesEven_le (x : ℚ) : (roundTiesEven x : ℚ) ≤ x + 1 / 2 := by
  have hfl : (⌊x⌋ : ℚ) ≤ x := Int.floor_le x
  have hlt : x < (⌊x⌋ : ℚ) + 1 := Int.lt_floor_add_one x
  unfold roundTiesEven
  split_ifs with h1 h2 h3
  · linarith
  · push_cast; linarith
  · linarith
  · push_cast; linarith

theorem roundTiesEven_intCast (z : ℤ) : roundTiesEven (z : ℚ) = z := by
  unfold roundTiesEven
  simp

/-- An integer below `x` stays below the rounding of `x`. -/
theorem le_roundTiesEven {z : ℤ} {x : ℚ} (h : (z : ℚ) ≤ x) : z ≤ roundTiesEven x :=
  le_trans (Int.le_floor.2 h) (floor_le_roundTiesEven x)

/-- The binary exponent of a number in `[1, 2^24)`. -/
theorem log_bounds {x : ℚ} (h1 : 1 ≤ x) (h2 : x < 2 ^ (24 : ℕ)) :
    0 ≤ Int.log 2 x ∧ Int.log 2 x ≤ 23 := by
  constructor
  · rw [Int.log_of_one_le_right 2 h1]
    exact Int.natCast_nonneg _
  · have hpos : (0 : ℚ) < x := by linarith
    have h : Int.log 2 x < 24 := by
      apply (Int.lt_zpow_iff_log_lt (by norm_num) hpos).1
      norm_num
      norm_num at h2
      exact h2
    omega

/-- The unit in the last place of a number in `[1, 2^24)` is `1 / 2^k` for a natural `k`, and
is at most `x / 2^23`. -/
theorem ulp_spec {x : ℚ} (h1 : 1 ≤ x) (h2 : x < 2 ^ (24 : ℕ)) :
    ∃ k : ℕ, (2 : ℚ) ^ (max (Int.log 2 |x|) (-126) - 23) = 1 / (2 : ℚ) ^ k ∧
      1 / (2 : ℚ) ^ k ≤ x / 2 ^ (23 : ℕ) := by
  have hpos : (0 : ℚ) < x := by linarith
  obtain ⟨hl0, hl1⟩ := log_bounds h1 h2
  have habs : |x| = x := abs_of_pos hpos
  have hmax : max (Int.log 2 |x|) (-126) = Int.log 2 x := by
    rw [habs]; omega
  refine ⟨(23 - Int.log 2 x).toNat, ?_, ?_⟩
  · rw [hmax]
    have hk : Int.log 2 x - 23 = -(((23 - Int.log 2 x).toNat : ℕ) : ℤ) := by
      rw [Int.toNat_of_nonneg (by omega)]; ring
    rw [hk, zpow_neg, zpow_natCast, one_div]
  · have hle : ((2 : ℕ) : ℚ) ^ Int.log 2 x ≤ x := Int.zpow_log_le_self (by norm_num) hpos
    have hk : Int.log 2 x - 23 = -(((23 - Int.log 2 x).toNat : ℕ) : ℤ) := by
      rw [Int.toNat_of_nonneg (by omega)]; ring
    have e1 : 1 / (2 : ℚ) ^ (23 - Int.log 2 x).toNat = (2 : ℚ) ^ (Int.log 2 x - 23) := by
      rw [hk, zpow_neg, zpow_natCast, one_div]
    rw [e1, zpow_sub₀ (by norm_num : (2 : ℚ) ≠ 0)]
    have : (2 : ℚ) ^ (23 : ℤ) = 2 ^ (23 : ℕ) := by norm_num
    rw [this]
    apply div_le_div_of_nonneg_right _ (by positivity)
    exact_mod_cast hle

/-- Rounding a number of `[1, 2^24)` that is far enough below the next integer stays in the
same unit interval. -/
theorem f32round_floor {x : ℚ} {n : ℤ} (h1 : 1 ≤ x) (h2 : x < 2 ^ (24 : ℕ)) (hn0 : 0 ≤ n)
    (hn : (n : ℚ) ≤ x) (hgap : x + x / 2 ^ (24 : ℕ) < n + 1) :
    ∃ r : ℚ, f32round x = some r ∧ (n : ℚ) ≤ r ∧ r < n + 1 := by
  obtain ⟨k, hk, hku⟩ := ulp_spec h1 h2
  have hpos : (0 : ℚ) < x := by linarith
  have h2k : (0 : ℚ) < 2 ^ k := by positivity
  set M : ℤ := roundTiesEven (x / (1 / (2 : ℚ) ^ k)) with hM
  have hlow : n * 2 ^ k ≤ M := by
    apply le_roundTiesEven
    push_cast
    rw [div_div_eq_mul_div, div_one]
    exact mul_le_mul_of_nonneg_right hn h2k.le
  have hup : (M : ℚ) ≤ x / (1 / (2 : ℚ) ^ k) + 1 / 2 := roundTiesEven_le _
  have hr1 : (n : ℚ) ≤ (M : ℚ) * (1 / (2 : ℚ) ^ k) := by
    have : ((n * 2 ^ k : ℤ) : ℚ) ≤ (M : ℚ) := by exact_mod_cast hlow
    push_cast at this
    rw [mul_one_div, le_div_iff₀ h2k]
    exact this
  have hr2 : (M : ℚ) * (1 / (2 : ℚ) ^ k) < n + 1 := by
    have hu : (0 : ℚ) < 1 / (2 : ℚ) ^ k := by positivity
    have : (M : ℚ) * (1 / (2 : ℚ) ^ k) ≤ x + (1 / (2 : ℚ) ^ k) / 2 := by
      calc (M : ℚ) * (1 / (2 : ℚ) ^ k)
          ≤ (x / (1 / (2 : ℚ) ^ k) + 1 / 2) * (1 / (2 : ℚ) ^ k) :=
            mul_le_mul_of_nonneg_right hup hu.le
        _ = x + (1 / (2 : ℚ) ^ k) / 2 := by field_simp; ring
    have h3 : (1 / (2 : ℚ) ^ k) / 2 ≤ x / 2 ^ (24 : ℕ) := by
      have : x / 2 ^ (24 : ℕ) = x / 2 ^ (23 : ℕ) / 2 := by ring
      rw [this]
      linarith
    linarith
  refine ⟨(M : ℚ) * (1 / (2 : ℚ) ^ k), ?_, hr1, hr2⟩
  unfold f32round
  simp only [hk, ← hM]
  rw [if_pos]
  rw [abs_lt]
  constructor
  · have : (0 : ℚ) ≤ n := by exact_mod_cast hn0
    have h128 : (0 : ℚ) < 2 ^ (128 : ℕ) := by positivity
    linarith
  · have : (n : ℚ) + 1 ≤ 2 ^ (24 : ℕ) + 1 := by linarith
    have h128 : (2 : ℚ) ^ (24 : ℕ) + 1 < 2 ^ (128 : ℕ) := by norm_num
    linarith

/-- Integers of magnitude below `2^24` are binary32 values: converting them is exact. -/
theorem f32round_intCast {n : ℤ} (h : |n| < 2 ^ (24 : ℕ)) :
    f32round (n : ℚ) = some (n : ℚ) := by
  have hbig : |(n : ℚ)| < 2 ^ (128 : ℕ) := by
    have : |(n : ℚ)| < 2 ^ (24 : ℕ) := by exact_mod_cast h
    have h128 : (2 : ℚ) ^ (24 : ℕ) < 2 ^ (128 : ℕ) := by norm_num
    linarith
  rcases eq_or_ne n 0 with h0 | h0
  · subst h0
    unfold f32round
    simp [roundTiesEven]
  · have h1 : (1 : ℚ) ≤ |(n : ℚ)| := by
      have : (1 : ℤ) ≤ |n| := Int.one_le_abs h0
      exact_mod_cast this
    have h2 : |(n : ℚ)| < 2 ^ (24 : ℕ) := by exact_mod_cast h
    obtain ⟨k, hk, -⟩ := ulp_spec h1 h2
    rw [abs_abs] at hk
    have h2k : (0 : ℚ) < 2 ^ k := by positivity
    have hM : (n : ℚ) / (1 / (2 : ℚ) ^ k) = ((n * 2 ^ k : ℤ) : ℚ) := by
      push_cast; field_simp
    unfold f32round
    simp only [hk]
    rw [hM, roundTiesEven_intCast]
    have hr : ((n * 2 ^ k : ℤ) : ℚ) * (1 / (2 : ℚ) ^ k) = n := by
      push_cast; field_simp
    rw [hr, if_pos hbig]

/-- Dividing two naturals below `2^24` in single precision and truncating the result gives
the integer quotient. -/
theorem f32div_toSInt32 {a b : ℕ} (hb : 0 < b) (hba : b ≤ a) (ha : a < 2 ^ 24) :
    (f32div (a : ℚ) (b : ℚ)).bind toSInt32 = some ((a / b : ℕ) : ℤ) := by
  have hbq : (0 : ℚ) < b := by exact_mod_cast hb
  have hx1 : (1 : ℚ) ≤ (a : ℚ) / b := by
    rw [le_div_iff₀ hbq]; simpa using (by exact_mod_cast hba : (b : ℚ) ≤ a)
  have haq : (a : ℚ) < 2 ^ (24 : ℕ) := by exact_mod_cast ha
  have hx2 : (a : ℚ) / b < 2 ^ (24 : ℕ) := by
    have h1b : (1 : ℚ) ≤ b := by exact_mod_cast hb
    calc (a : ℚ) / b ≤ a := div_le_self (by positivity) h1b
      _ < 2 ^ (24 : ℕ) := haq
  have hn : (((a / b : ℕ) : ℤ) : ℚ) ≤ (a : ℚ) / b := by
    rw [le_div_iff₀ hbq]
    have : a / b * b ≤ a := Nat.div_mul_le_self a b
    exact_mod_cast this
  have hgap : (a : ℚ) / b + (a : ℚ) / b / 2 ^ (24 : ℕ)
      < (((a / b : ℕ) : ℤ) : ℚ) + 1 := by
    have hlt : a < (a / b + 1) * b := by
      have := Nat.lt_div_mul_add hb (a := a)
      nlinarith [Nat.div_mul_le_self a b, Nat.mod_lt a hb, Nat.div_add_mod a b]
    have hlt2 : (a : ℚ) + 1 ≤ ((a / b : ℕ) + 1 : ℚ) * b := by exact_mod_cast hlt
    have hsum : (a : ℚ) / b + (a : ℚ) / b / 2 ^ (24 : ℕ)
        = (a * (2 ^ (24 : ℕ) + 1)) / (b * 2 ^ (24 : ℕ)) := by
      field_simp; ring
    rw [hsum, div_lt_iff₀ (by positivity)]
    have hcast : ((((a / b : ℕ) : ℤ) : ℚ) + 1) * ((b : ℚ) * 2 ^ (24 : ℕ))
        = (((a / b : ℕ) + 1 : ℚ) * b) * 2 ^ (24 : ℕ) := by
      rw [Int.cast_natCast]; ring
    rw [hcast]
    have h24 : (0 : ℚ) < 2 ^ (24 : ℕ) := by positivity
    have := mul_le_mul_of_nonneg_right hlt2 h24.le
    nlinarith
  obtain ⟨r, hr, hr1, hr2⟩ := f32round_floor hx1 hx2 (Int.natCast_nonneg _) hn hgap
  have hb0 : (b : ℚ) ≠ 0 := ne_of_gt hbq
  have hfl : ⌊r⌋ = ((a / b : ℕ) : ℤ) := by
    rw [Int.floor_eq_iff]; exact ⟨hr1, hr2⟩
  have hr0 : (0 : ℚ) ≤ r := le_trans (by exact_mod_cast Int.natCast_nonneg _) hr1
  have hdiv : a / b < 2 ^ 24 := lt_of_le_of_lt (Nat.div_le_self a b) ha
  unfold f32div
  rw [if_neg hb0, hr]
  simp only [Option.some_bind, toSInt32, if_pos hr0, hfl]
  have hq0 : (0 : ℤ) ≤ ((a / b : ℕ) : ℤ) := Int.natCast_nonneg _
  have hq1 : ((a / b : ℕ) : ℤ) < 2 ^ (24 : ℕ) := by exact_mod_cast hdiv
  rw [if_pos]
  constructor
  · linarith
  · have : (2 : ℤ) ^ (24 : ℕ) < 2 ^ (31 : ℕ) := by norm_num
    linarith

theorem sub_half_le_roundTiesEven (x : ℚ) : x - 1 / 2 ≤ (roundTiesEven x : ℚ) := by
  have hfl : (⌊x⌋ : ℚ) ≤ x := Int.floor_le x
  have hlt : x < (⌊x⌋ : ℚ) + 1 := Int.lt_floor_add_one x
  unfold roundTiesEven
  split_ifs with h1 h2 h3
  · linarith
  · push_cast; linarith
  · linarith
  · push_cast; linarith

/-- A number strictly within one half of an integer rounds to that integer. -/
theorem roundTiesEven_eq {x : ℚ} {m : ℤ} (h1 : (m : ℚ) - 1 / 2 < x) (h2 : x < m + 1 / 2) :
    roundTiesEven x = m := by
  have hup := roundTiesEven_le x
  have hlow := sub_half_le_roundTiesEven x
  have ha : (roundTiesEven x : ℚ) < m + 1 := by linarith
  have hb : (m : ℚ) - 1 < roundTiesEven x := by linarith
  have ha' : roundTiesEven x < m + 1 := by exact_mod_cast ha
  have hb' : m - 1 < roundTiesEven x := by exact_mod_cast hb
  omega

/-- The binary exponent of a number between two consecutive powers of two. -/
theorem log_eq_of_bounds {y : ℚ} {e : ℤ} (h1 : (2 : ℚ) ^ e ≤ y)
    (h2 : y < (2 : ℚ) ^ (e + 1)) :
    Int.log 2 y = e := by
  have hpos : (0 : ℚ) < y := lt_of_lt_of_le (by positivity) h1
  have ha : e ≤ Int.log 2 y :=
    (Int.zpow_le_iff_le_log (by norm_num) hpos).1 (by exact_mod_cast h1)
  have hb : Int.log 2 y < e + 1 :=
    (Int.lt_zpow_iff_log_lt (by norm_num) hpos).1 (by exact_mod_cast h2)
  omega

/-- The rounding of a number in the normal range is within half a unit in the last place,
hence within the relative error `2^-24`. -/
theorem f32round_near {x : ℚ} (h1 : 1 / (2 : ℚ) ^ (126 : ℕ) ≤ |x|)
    (h2 : |x| < (2 : ℚ) ^ (127 : ℕ)) :
    ∃ r : ℚ, f32round x = some r ∧ |r - x| ≤ |x| / 2 ^ (24 : ℕ) := by
  have hpos : (0 : ℚ) < |x| := lt_of_lt_of_le (by positivity) h1
  have hlog : -126 ≤ Int.log 2 |x| := by
    apply (Int.zpow_le_iff_le_log (by norm_num) hpos).1
    have : ((2 : ℕ) : ℚ) ^ (-126 : ℤ) = 1 / (2 : ℚ) ^ (126 : ℕ) := by
      rw [zpow_neg, one_div]; norm_num
    rw [this]; exact h1
  have hmax : max (Int.log 2 |x|) (-126) = Int.log 2 |x| := max_eq_left hlog
  have hle : ((2 : ℕ) : ℚ) ^ Int.log 2 |x| ≤ |x| := Int.zpow_log_le_self (by norm_num) hpos
  set u : ℚ := (2 : ℚ) ^ (Int.log 2 |x| - 23) with hu
  have hupos : 0 < u := by positivity
  have hubound : u ≤ |x| / 2 ^ (23 : ℕ) := by
    rw [hu, zpow_sub₀ (by norm_num : (2 : ℚ) ≠ 0)]
    have : (2 : ℚ) ^ (23 : ℤ) = 2 ^ (23 : ℕ) := by norm_num
    rw [this]
    apply div_le_div_of_nonneg_right _ (by positivity)
    exact_mod_cast hle
  have hM1 := roundTiesEven_le (x / u)
  have hM2 := sub_half_le_roundTiesEven (x / u)
  have herr : |(roundTiesEven (x / u) : ℚ) * u - x| ≤ u / 2 := by
    have hx : x = x / u * u := by field_simp
    rw [abs_le]
    constructor
    · have := mul_le_mul_of_nonneg_right hM2 hupos.le
      nlinarith
    · have := mul_le_mul_of_nonneg_right hM1 hupos.le
      nlinarith
  have herr2 : |(roundTiesEven (x / u) : ℚ) * u - x| ≤ |x| / 2 ^ (24 : ℕ) := by
    have : |x| / 2 ^ (24 : ℕ) = |x| / 2 ^ (23 : ℕ) / 2 := by ring
    rw [this]; linarith
  refine ⟨(roundTiesEven (x / u) : ℚ) * u, ?_, herr2⟩
  unfold f32round
  simp only [hmax, ← hu]
  rw [if_pos]
  have htri : |(roundTiesEven (x / u) : ℚ) * u|
      ≤ |(roundTiesEven (x / u) : ℚ) * u - x| + |x| := by
    have := abs_add ((roundTiesEven (x / u) : ℚ) * u - x) x
    simpa using this
  have hsmall : |x| / 2 ^ (24 : ℕ) ≤ |x| := div_le_self hpos.le (by norm_num)
  have h128 : (2 : ℚ) ^ (127 : ℕ) + 2 ^ (127 : ℕ) = 2 ^ (128 : ℕ) := by norm_num
  linarith

/-- Evaluation of the rounding from the exponent and the significand. -/
theorem f32round_eval {x : ℚ} (e m : ℤ) (he : -126 ≤ e) (h1 : (2 : ℚ) ^ e ≤ |x|)
    (h2 : |x| < (2 : ℚ) ^ (e + 1))
    (hm1 : (m : ℚ) - 1 / 2 < x / (2 : ℚ) ^ (e - 23))
    (hm2 : x / (2 : ℚ) ^ (e - 23) < m + 1 / 2)
    (hfin : |(m : ℚ) * (2 : ℚ) ^ (e - 23)| < 2 ^ (128 : ℕ)) :
    f32round x = some ((m : ℚ) * (2 : ℚ) ^ (e - 23)) := by
  have hlog := log_eq_of_bounds h1 h2
  unfold f32round
  simp only [hlog, max_eq_left he, roundTiesEven_eq hm1 hm2]
  rw [if_pos hfin]

/-- The `float` nearest to 2.4. -/
theorem f32round_2400 : f32round ((2400 : ℚ) / 1000) = some (5033165 / 2097152) := by
  have h := f32round_eval (x := (2400 : ℚ) / 1000) 1 10066330 (by norm_num)
    (by rw [abs_of_pos (by norm_num)]; norm_num)
    (by rw [abs_of_pos (by norm_num)]; norm_num)
    (by norm_num) (by norm_num)
    (by rw [abs_of_pos (by norm_num)]; norm_num)
  rw [h]
  norm_num

/-! ## Facts about the readers -/

theorem readByte_lt (H : Header) (host : Host) (s : IT87x) (reg : Nat) :
    (readByte H host s reg).1 < 256 := by
  simp only [readByte, inb]
  exact Nat.mod_lt _ (by norm_num)

theorem lor_shiftLeft_eq_add {lo : Nat} (hi : Nat) (h : lo < 256) :
    lo ||| (hi <<< 8) = lo + (hi <<< 8) := by
  have h8 : lo < 2 ^ 8 := by norm_num; exact h
  have := Nat.mul_add_lt_is_or h8 hi
  rw [Nat.shiftLeft_eq, Nat.lor_comm, Nat.mul_comm hi, ← this]
  omega

theorem f32ofInt_zero_toSInt32 : (f32ofInt 0).bind toSInt32 = some 0 := by
  have h : f32round ((0 : ℤ) : ℚ) = some ((0 : ℤ) : ℚ) := f32round_intCast (by norm_num)
  simp only [f32ofInt, h, Option.some_bind, toSInt32]
  simp

/-- Naturals below `2^24` are converted to `float` exactly. -/
theorem f32round_natCast {a : ℕ} (ha : a < 2 ^ 24) : f32round (a : ℚ) = some (a : ℚ) := by
  have h := f32round_intCast (n := (a : ℤ))
    (by rw [abs_of_nonneg (Int.natCast_nonneg a)]; exact_mod_cast ha)
  rwa [Int.cast_natCast] at h

/-- The `float` quotient of two converted integers, truncated. -/
theorem f32_quotient {a b : ℕ} (hb : 0 < b) (hba : b ≤ a) (ha : a < 2 ^ 24) :
    ((f32ofInt (a : ℤ)).bind (fun n => (f32ofInt (b : ℤ)).bind (fun d => f32div n d))).bind
      toSInt32 = some ((a / b : ℕ) : ℤ) := by
  have h1 := f32round_natCast ha
  have h2 := f32round_natCast (lt_of_le_of_lt hba ha)
  simp only [f32ofInt, Int.cast_natCast, h1, h2, Option.some_bind]
  exact f32div_toSInt32 hb hba ha

/-- Any two bytes can be what two consecutive `readByte` calls deliver: the readers are
specified for all register contents. -/
theorem readByte_pair_realizable (H : Header) (s : IT87x) (r1 r2 lo hi : Nat)
    (hlo : lo < 256) (hhi : hi < 256) :
    ∃ host : Host, (readByte H host s r1).1 = lo ∧
      (readByte H host (readByte H host s r1).2 r2).1 = hi := by
  refine ⟨{ inb := fun t _ => if t.length = s.trace.length + 1 then lo else hi
            listenPortWord := fun _ _ => 0
            getLogicalDeviceAddress := fun _ => (false, 0) }, ?_, ?_⟩
  · simp [readByte, inb, outb, Nat.mod_eq_of_lt hlo]
  · simp [readByte, inb, outb, Nat.mod_eq_of_lt hhi]

/-- What `readTachometer` returns in 16-bit mode. -/
theorem readTachometer_eval16 (H : Header) (host : Host) (s : IT87x) (index : Nat)
    (hidx : index < 5) (h16 : s.has16bitFanCounter = true) :
    let lo := readByte H host s (H.ITE_FAN_TACHOMETER_REG ⟨index, hidx⟩)
    let hi := readByte H host lo.2 (H.ITE_FAN_TACHOMETER_EXT_REG ⟨index, hidx⟩)
    let count := lo.1 + (hi.1 <<< 8)
    (readTachometer H host s index).1 =
      if 0x3f < count ∧ count < 0xffff then some (((1350000 + count) / (2 * count) : ℕ) : ℤ)
      else some 0 := by
  intro lo hi count
  have hlo : lo.1 < 256 := readByte_lt H host s _
  have hval : lo.1 ||| (hi.1 <<< 8) = count := lor_shiftLeft_eq_add hi.1 hlo
  have hrt : (readTachometer H host s index).1 =
      (if 0x3f < count ∧ count < 0xffff then
          (f32ofInt (1350000 + (count : ℤ))).bind
            (fun n => (f32ofInt ((count : ℤ) * 2)).bind (fun d => f32div n d))
        else f32ofInt 0).bind toSInt32 := by
    simp only [readTachometer, dif_pos hidx, h16, if_true]
    rw [hval]
  rw [hrt]
  by_cases hc : 0x3f < count ∧ count < 0xffff
  · rw [if_pos hc, if_pos hc]
    have h := f32_quotient (a := 1350000 + count) (b := count * 2) (by omega) (by omega)
      (by norm_num; omega)
    rw [Nat.mul_comm 2 count]
    simpa using h
  · rw [if_neg hc, if_neg hc]
    exact f32ofInt_zero_toSInt32

/-- What `readTachometer` returns in 8-bit mode. -/
theorem readTachometer_eval8 (H : Header) (host : Host) (s : IT87x) (index : Nat)
    (hidx : index < 5) (h8 : s.has16bitFanCounter = false) :
    let cnt := readByte H host s (H.ITE_FAN_TACHOMETER_REG ⟨index, hidx⟩)
    let d := readByte H host cnt.2 H.ITE_FAN_TACHOMETER_DIVISOR_REGISTER
    let divisor := if index < 2 then 1 <<< ((d.1 >>> (3 * index)) &&& 0x7) else 2
    (readTachometer H host s index).1 =
      if 0 < cnt.1 ∧ cnt.1 < 0xff then some ((1350000 / (cnt.1 * divisor) : ℕ) : ℤ)
      else some 0 := by
  intro cnt d divisor
  have hrt : (readTachometer H host s index).1 =
      (if 0 < cnt.1 ∧ cnt.1 < 0xff then
          (f32round 1350000).bind
            (fun n => (f32ofInt ((cnt.1 : ℤ) * (divisor : ℤ))).bind (fun d => f32div n d))
        else f32ofInt 0).bind toSInt32 := by
    simp only [readTachometer, dif_pos hidx, h8]
    by_cases h2 : index < 2
    · simp [h2, divisor, cnt, d]
    · simp [h2, divisor, cnt]
  rw [hrt]
  by_cases hc : 0 < cnt.1 ∧ cnt.1 < 0xff
  · rw [if_pos hc, if_pos hc]
    have hdiv : 0 < divisor ∧ divisor ≤ 128 := by
      by_cases h2 : index < 2
      · have hk : (d.1 >>> (3 * index)) &&& 0x7 ≤ 7 := Nat.and_le_right
        simp only [divisor, if_pos h2, Nat.one_shiftLeft]
        constructor
        · positivity
        · calc 2 ^ ((d.1 >>> (3 * index)) &&& 0x7) ≤ 2 ^ 7 :=
              Nat.pow_le_pow_right (by norm_num) hk
            _ = 128 := by norm_num
      · simp only [divisor, if_neg h2]; omega
    have hprod : cnt.1 * divisor ≤ 254 * 128 := Nat.mul_le_mul (by omega) hdiv.2
    have hpos : 0 < cnt.1 * divisor := Nat.mul_pos hc.1 hdiv.1
    have h := f32_quotient (a := 1350000) (b := cnt.1 * divisor) hpos (by omega) (by norm_num)
    simp only [f32ofInt] at h ⊢
    simpa using h
  · rw [if_neg hc, if_neg hc]
    exact f32ofInt_zero_toSInt32

/-! ## Facts about `probePort` -/

theorem foldl_update_one (l : List (Fin 9)) (g : Fin 9 → ℤ) (i : Fin 9) :
    l.foldl (fun acc j => Function.update acc j 1) g i = if i ∈ l then 1 else g i := by
  induction l generalizing g with
  | nil => simp
  | cons a t ih =>
    rw [List.foldl_cons, ih]
    by_cases hit : i ∈ t
    · simp [hit]
    · by_cases hia : i = a
      · subst hia; simp [hit]
      · simp [hit, hia, Function.update_noteq hia]

/-- The loop over the nine channels leaves every gain at 1. -/
theorem resetSpecificGain_apply (g : Fin 9 → ℤ) (i : Fin 9) : resetSpecificGain g i = 1 := by
  unfold resetSpecificGain
  rw [foldl_update_one, if_pos (List.mem_finRange i)]

/-- How `probePort` runs through its observation points. -/
theorem probePort_stages (H : Header) (host : Host) (s : IT87x) :
    probePort H host s =
      if probeId H host s = 0 ∨ probeId H host s = 0xffff then
        (false, (listenPortWord host s H.SUPERIO_CHIP_ID_REGISTER).2)
      else if probeId H host s ∈ supported H then
        if (probeAddress H host s).1 = false then
          (false, WarningLog (probeAddress H host s).2
            "can't get monitoring logical device address" [])
        else if (probeVendor H host s).1 ≠ H.ITE_VENDOR_ID then
          (false, WarningLog (probeVendor H host s).2 "invalid vendor ID=0x%x"
            [(probeVendor H host s).1])
        else if (probeConfig H host s).1 &&& 0x10 = 0 then
          (false, WarningLog (probeConfig H host s).2 "invalid configuration register value" [])
        else
          (true,
            { (probeVersion H host s).2 with
              voltageGain :=
                if probeId H host s = H.IT8721F ∨ probeId H host s = H.IT8728F ∨
                    probeId H host s = H.IT8772E then 12 else 16
              has16bitFanCounter :=
                !(decide (probeId H host s = H.IT8712F) &&
                  decide ((probeVersion H host s).1 &&& 0x0F < 8))
              voltageSpecificGain := resetSpecificGain s.voltageSpecificGain })
      else
        (false, WarningLog (listenPortWord host s H.SUPERIO_CHIP_ID_REGISTER).2
          "found unsupported chip ID=0x%x" [probeId H host s]) := by
  unfold probePort
  simp only [probeId, probeAddress, probeVendor, probeConfig, probeVersion, probeSelected]
  split_ifs <;> rfl

/-- A supported model has a name. -/
theorem getModelName_ne_unknown (H : Header) (t : IT87x) (ht : t.model ∈ supported H) :
    getModelName H t ≠ "unknown" := by
  unfold getModelName
  by_cases c0 : t.model = H.IT8512F
  · rw [if_pos c0]; decide
  rw [if_neg c0]
  by_cases c1 : t.model = H.IT8712F
  · rw [if_pos c1]; decide
  rw [if_neg c1]
  by_cases c2 : t.model = H.IT8716F
  · rw [if_pos c2]; decide
  rw [if_neg c2]
  by_cases c3 : t.model = H.IT8718F
  · rw [if_pos c3]; decide
  rw [if_neg c3]
  by_cases c4 : t.model = H.IT8720F
  · rw [if_pos c4]; decide
  rw [if_neg c4]
  by_cases c5 : t.model = H.IT8721F
  · rw [if_pos c5]; decide
  rw [if_neg c5]
  by_cases c6 : t.model = H.IT8726F
  · rw [if_pos c6]; decide
  rw [if_neg c6]
  by_cases c7 : t.model = H.IT8728F
  · rw [if_pos c7]; decide
  rw [if_neg c7]
  by_cases c8 : t.model = H.IT8752F
  · rw [if_pos c8]; decide
  rw [if_neg c8]
  by_cases c9 : t.model = H.IT8772E
  · rw [if_pos c9]; decide
  exfalso
  simp only [supported, List.mem_cons, List.mem_singleton, List.not_mem_nil, or_false] at ht
  tauto

/-- The state `probePort` leaves when every check passes. -/
theorem probePort_success (H : Header) (host : Host) (s : IT87x)
    (h1 : ¬ (probeId H host s = 0 ∨ probeId H host s = 0xffff))
    (h2 : probeId H host s ∈ supported H)
    (h3 : (probeAddress H host s).1 = true)
    (h4 : (probeVendor H host s).1 = H.ITE_VENDOR_ID)
    (h5 : (probeConfig H host s).1 &&& 0x10 ≠ 0) :
    probePort H host s =
      (true,
        { (probeVersion H host s).2 with
          voltageGain :=
            if probeId H host s = H.IT8721F ∨ probeId H host s = H.IT8728F ∨
                probeId H host s = H.IT8772E then 12 else 16
          has16bitFanCounter :=
            !(decide (probeId H host s = H.IT8712F) &&
              decide ((probeVersion H host s).1 &&& 0x0F < 8))
          voltageSpecificGain := resetSpecificGain s.voltageSpecificGain }) := by
  rw [probePort_stages, if_neg h1, if_pos h2, if_neg (by simp [h3]), if_neg (not_not.2 h4),
    if_neg h5]

/-- The checks that have passed when `probePort` returns true. -/
theorem probePort_conditions (H : Header) (host : Host) (s : IT87x)
    (hok : (probePort H host s).1 = true) :
    ¬ (probeId H host s = 0 ∨ probeId H host s = 0xffff) ∧
    probeId H host s ∈ supported H ∧
    (probeAddress H host s).1 = true ∧
    (probeVendor H host s).1 = H.ITE_VENDOR_ID ∧
    (probeConfig H host s).1 &&& 0x10 ≠ 0 := by
  rw [probePort_stages] at hok
  by_cases h1 : probeId H host s = 0 ∨ probeId H host s = 0xffff
  · rw [if_pos h1] at hok; exact absurd hok (by simp)
  rw [if_neg h1] at hok
  by_cases h2 : probeId H host s ∈ supported H
  swap
  · rw [if_neg h2] at hok; exact absurd hok (by simp)
  rw [if_pos h2] at hok
  by_cases h3 : (probeAddress H host s).1 = false
  · rw [if_pos h3] at hok; exact absurd hok (by simp)
  rw [if_neg h3] at hok
  by_cases h4 : (probeVendor H host s).1 ≠ H.ITE_VENDOR_ID
  · rw [if_pos h4] at hok; exact absurd hok (by simp)
  rw [if_neg h4] at hok
  by_cases h5 : (probeConfig H host s).1 &&& 0x10 = 0
  · rw [if_pos h5] at hok; exact absurd hok (by simp)
  exact ⟨h1, h2, by simpa using h3, not_not.1 h4, h5⟩

/-! ## Chip detection -/

/-- C1: for a header whose model identifiers differ from the sentinels 0x0000 and 0xFFFF: when
the identifier read is one of the ten supported ones, the logical-device address is
available, the vendor-ID register reads `ITE_VENDOR_ID` and the configuration register has
bit 0x10 set, `probePort` returns true, `model` is the identifier read (a supported one),
`voltageGain` is 12 for IT8721F, IT8728F and IT8772E and 16 otherwise, `has16bitFanCounter` is
false exactly for an IT8712F whose version nibble is below 8, and all nine entries of
`voltageSpecificGain` are 1. -/
theorem probePort_supported (H : Header) (host : Host) (s : IT87x)
    (hvalid : ∀ m ∈ supported H, m ≠ 0 ∧ m ≠ 0xffff)
    (hid : probeId H host s ∈ supported H)
    (haddr : (probeAddress H host s).1 = true)
    (hvendor : (probeVendor H host s).1 = H.ITE_VENDOR_ID)
    (hcfg : (probeConfig H host s).1 &&& 0x10 ≠ 0) :
    (probePort H host s).1 = true ∧
    (probePort H host s).2.model = probeId H host s ∧
    (probePort H host s).2.model ∈ supported H ∧
    (probePort H host s).2.voltageGain =
      (if probeId H host s = H.IT8721F ∨ probeId H host s = H.IT8728F ∨
          probeId H host s = H.IT8772E then 12 else 16) ∧
    ((probePort H host s).2.has16bitFanCounter = false ↔
      (probeId H host s = H.IT8712F ∧ (probeVersion H host s).1 &&& 0x0F < 8)) ∧
    ∀ i : Fin 9, (probePort H host s).2.voltageSpecificGain i = 1 := by
  have hid0 := hvalid _ hid
  rw [probePort_success H host s (not_or.2 hid0) hid haddr hvendor hcfg]
  refine ⟨rfl, rfl, hid, rfl, ?_, fun i => resetSpecificGain_apply _ i⟩
  simp

/-- C2: `probePort` returns true exactly when the identifier read is one of the ten supported
model identifiers and neither 0x0000 nor 0xFFFF, `getLogicalDeviceAddress()` succeeds after
the environment controller is selected, the vendor-ID register equals `ITE_VENDOR_ID` and the
configuration register has bit 0x10 set; in each of the five failure cases it returns
false. -/
theorem probePort_true_iff (H : Header) (host : Host) (s : IT87x) :
    ((probePort H host s).1 = true ↔
      (probeId H host s ∈ supported H ∧ probeId H host s ≠ 0 ∧
        probeId H host s ≠ 0xffff) ∧
      (probeAddress H host s).1 = true ∧
      (probeVendor H host s).1 = H.ITE_VENDOR_ID ∧
      (probeConfig H host s).1 &&& 0x10 ≠ 0) ∧
    ((probeId H host s = 0 ∨ probeId H host s = 0xffff) → (probePort H host s).1 = false) ∧
    (probeId H host s ∉ supported H → (probePort H host s).1 = false) ∧
    ((probeAddress H host s).1 = false → (probePort H host s).1 = false) ∧
    ((probeVendor H host s).1 ≠ H.ITE_VENDOR_ID → (probePort H host s).1 = false) ∧
    ((probeConfig H host s).1 &&& 0x10 = 0 → (probePort H host s).1 = false) := by
  refine ⟨⟨fun hok => ?_, fun hc => ?_⟩, ?_, ?_, ?_, ?_, ?_⟩
  · obtain ⟨k1, k2, k3, k4, k5⟩ := probePort_conditions H host s hok
    exact ⟨⟨k2, (not_or.1 k1).1, (not_or.1 k1).2⟩, k3, k4, k5⟩
  · obtain ⟨⟨k2, k0, kf⟩, k3, k4, k5⟩ := hc
    rw [probePort_success H host s (not_or.2 ⟨k0, kf⟩) k2 k3 k4 k5]
  all_goals
    intro hc
    cases hr : (probePort H host s).1
    · rfl
    · obtain ⟨k1, k2, k3, k4, k5⟩ := probePort_conditions H host s hr
      first
        | exact absurd hc k1
        | exact absurd k2 hc
        | exact absurd k4 hc
        | exact absurd hc k5
        | (rw [k3] at hc; exact absurd hc (by simp))

/-- C8: when the identifier read is 0x0000, 0xFFFF or not one of the ten supported ones,
`probePort` returns false, `model`, `voltageGain`, `has16bitFanCounter` and
`voltageSpecificGain` keep their values, and after the identifier word nothing addresses the
chip: no logical device is selected and no register is read. -/
theorem probePort_rejects (H : Header) (host : Host) (s : IT87x)
    (hbad : probeId H host s = 0 ∨ probeId H host s = 0xffff ∨
      probeId H host s ∉ supported H) :
    (probePort H host s).1 = false ∧
    (probePort H host s).2.model = s.model ∧
    (probePort H host s).2.voltageGain = s.voltageGain ∧
    (probePort H host s).2.has16bitFanCounter = s.has16bitFanCounter ∧
    (probePort H host s).2.voltageSpecificGain = s.voltageSpecificGain ∧
    (probePort H host s).2.address = s.address ∧
    ∃ rest : List Event,
      (probePort H host s).2.trace =
        s.trace ++
          Event.listenPortWord (H.SUPERIO_CHIP_ID_REGISTER % 256) (probeId H host s) :: rest ∧
      ∀ e ∈ rest, e.touchesChip = false := by
  rw [probePort_stages]
  by_cases h1 : probeId H host s = 0 ∨ probeId H host s = 0xffff
  · rw [if_pos h1]
    exact ⟨rfl, rfl, rfl, rfl, rfl, rfl, [], rfl, by simp⟩
  · have h2 : probeId H host s ∉ supported H := by tauto
    rw [if_neg h1, if_neg h2]
    refine ⟨rfl, rfl, rfl, rfl, rfl, rfl,
      [Event.WarningLog "found unsupported chip ID=0x%x" [probeId H host s]], ?_, ?_⟩
    · simp [WarningLog, listenPortWord, probeId]
    · simp [Event.touchesChip]

/-- C9, amended: whenever `probePort` returns false, `voltageGain`, `has16bitFanCounter` and
`voltageSpecificGain` hold the values they had before the call; `model` holds its previous
value when the identifier was rejected (0x0000, 0xFFFF or unsupported), and holds the
identifier read when the failure came later (address, vendor or configuration check). -/
theorem probePort_failure_frame (H : Header) (host : Host) (s : IT87x)
    (hfail : (probePort H host s).1 = false) :
    (probePort H host s).2.voltageGain = s.voltageGain ∧
    (probePort H host s).2.has16bitFanCounter = s.has16bitFanCounter ∧
    (probePort H host s).2.voltageSpecificGain = s.voltageSpecificGain ∧
    ((probeId H host s = 0 ∨ probeId H host s = 0xffff ∨ probeId H host s ∉ supported H) →
      (probePort H host s).2.model = s.model) ∧
    (¬ (probeId H host s = 0 ∨ probeId H host s = 0xffff ∨
        probeId H host s ∉ supported H) →
      (probePort H host s).2.model = probeId H host s) := by
  rw [probePort_stages] at hfail ⊢
  split_ifs at hfail ⊢ with h1 h2 h3 h4 h5
  · exact ⟨rfl, rfl, rfl, fun _ => rfl, fun h => absurd (by tauto) h⟩
  · exact ⟨rfl, rfl, rfl, fun h => absurd h (by tauto), fun _ => rfl⟩
  · exact ⟨rfl, rfl, rfl, fun h => absurd h (by tauto), fun _ => rfl⟩
  · exact ⟨rfl, rfl, rfl, fun h => absurd h (by tauto), fun _ => rfl⟩
  · exact ⟨rfl, rfl, rfl, fun _ => rfl, fun h => absurd (by tauto) h⟩

/-- Witness of C1: the probe of an IT8728F that passes every check. -/
theorem probePort_supported_witness :
    (probePort it87 it8728 fresh).1 = true ∧
    (probePort it87 it8728 fresh).2.model = 0x8728 ∧
    (probePort it87 it8728 fresh).2.voltageGain = 12 := by
  have h := probePort_supported it87 it8728 fresh (by decide) (by decide) (by decide)
    (by decide) (by decide)
  exact ⟨h.1, h.2.1, h.2.2.2.1⟩

/-- Witness of C8: the probe of a chip with the unsupported identifier 0x1234. -/
theorem probePort_rejects_witness :
    (probePort it87 (chip 0x1234 true 0x290 (regfile [])) fresh).1 = false ∧
    (probePort it87 (chip 0x1234 true 0x290 (regfile [])) fresh).2.model = fresh.model := by
  have h := probePort_rejects it87 (chip 0x1234 true 0x290 (regfile [])) fresh
    (Or.inr (Or.inr (by decide)))
  exact ⟨h.1, h.2.1⟩

/-- Witness of C9 (amended): an IT8712F whose logical-device address is unavailable. -/
theorem probePort_failure_frame_witness :
    (probePort it87 it8712NoAddress fresh).2.voltageGain = fresh.voltageGain ∧
    (probePort it87 it8712NoAddress fresh).2.has16bitFanCounter = fresh.has16bitFanCounter ∧
    (probePort it87 it8712NoAddress fresh).2.voltageSpecificGain = fresh.voltageSpecificGain := by
  have h := probePort_failure_frame it87 it8712NoAddress fresh (by decide)
  exact ⟨h.1, h.2.1, h.2.2.1⟩

/-- C9, counterexample: the probe of an IT8712F whose logical-device address is unavailable
returns false, yet `model`, 0 before the call, holds 0x8712 after it. -/
theorem probePort_failure_changes_model :
    (probePort it87 it8712NoAddress fresh).1 = false ∧
    fresh.model = 0 ∧
    (probePort it87 it8712NoAddress fresh).2.model = 0x8712 ∧
    (probePort it87 it8712NoAddress fresh).2.model ≠ fresh.model := by
  decide


/-! ## Model name -/

/-- C7: for a header whose ten model identifiers are pairwise different (as the `case` labels
of a `switch` are), `getModelName` returns the literal spelling of the model for each of the
ten identifiers, "unknown" for every other value of `model`, and hence never "unknown" after
a successful `probePort`. -/
theorem getModelName_spec (H : Header) (host : Host) (s : IT87x)
    (hdistinct : (supported H).Nodup) :
    (s.model = H.IT8512F → getModelName H s = "IT8512F") ∧
    (s.model = H.IT8712F → getModelName H s = "IT8712F") ∧
    (s.model = H.IT8716F → getModelName H s = "IT8716F") ∧
    (s.model = H.IT8718F → getModelName H s = "IT8718F") ∧
    (s.model = H.IT8720F → getModelName H s = "IT8720F") ∧
    (s.model = H.IT8721F → getModelName H s = "IT8721F") ∧
    (s.model = H.IT8726F → getModelName H s = "IT8726F") ∧
    (s.model = H.IT8728F → getModelName H s = "IT8728F") ∧
    (s.model = H.IT8752F → getModelName H s = "IT8752F") ∧
    (s.model = H.IT8772E → getModelName H s = "IT8772E") ∧
    (s.model ∉ supported H → getModelName H s = "unknown") ∧
    ((probePort H host s).1 = true →
      getModelName H (probePort H host s).2 ≠ "unknown") := by
  have hnd := hdistinct
  simp only [supported, List.nodup_cons, List.mem_cons, List.mem_singleton, not_or,
    List.not_mem_nil, not_false_eq_true, List.nodup_nil, and_true] at hnd
  obtain ⟨⟨h01, h02, h03, h04, h05, h06, h07, h08, h09⟩,
    ⟨h12, h13, h14, h15, h16, h17, h18, h19⟩, ⟨h23, h24, h25, h26, h27, h28, h29⟩,
    ⟨h34, h35, h36, h37, h38, h39⟩, ⟨h45, h46, h47, h48, h49⟩, ⟨h56, h57, h58, h59⟩,
    ⟨h67, h68, h69⟩, ⟨h78, h79⟩, h89⟩ := hnd
  refine ⟨?_, ?_, ?_, ?_, ?_, ?_, ?_, ?_, ?_, ?_, ?_, ?_⟩
  · intro h
    unfold getModelName
    rw [h, if_pos rfl]
  · intro h
    unfold getModelName
    rw [h, if_neg (Ne.symm h01), if_pos rfl]
  · intro h
    unfold getModelName
    rw [h, if_neg (Ne.symm h02), if_neg (Ne.symm h12), if_pos rfl]
  · intro h
    unfold getModelName
    rw [h, if_neg (Ne.symm h03), if_neg (Ne.symm h13), if_neg (Ne.symm h23), if_pos rfl]
  · intro h
    unfold getModelName
    rw [h, if_neg (Ne.symm h04), if_neg (Ne.symm h14), if_neg (Ne.symm h24),
      if_neg (Ne.symm h34), if_pos rfl]
  · intro h
    unfold getModelName
    rw [h, if_neg (Ne.symm h05), if_neg (Ne.symm h15), if_neg (Ne.symm h25),
      if_neg (Ne.symm h35), if_neg (Ne.symm h45), if_pos rfl]
  · intro h
    unfold getModelName
    rw [h, if_neg (Ne.symm h06), if_neg (Ne.symm h16), if_neg (Ne.symm h26),
      if_neg (Ne.symm h36), if_neg (Ne.symm h46), if_neg (Ne.symm h56), if_pos rfl]
  · intro h
    unfold getModelName
    rw [h, if_neg (Ne.symm h07), if_neg (Ne.symm h17), if_neg (Ne.symm h27),
      if_neg (Ne.symm h37), if_neg (Ne.symm h47), if_neg (Ne.symm h57), if_neg (Ne.symm h67),
      if_pos rfl]
  · intro h
    unfold getModelName
    rw [h, if_neg (Ne.symm h08), if_neg (Ne.symm h18), if_neg (Ne.symm h28),
      if_neg (Ne.symm h38), if_neg (Ne.symm h48), if_neg (Ne.symm h58), if_neg (Ne.symm h68),
      if_neg (Ne.symm h78), if_pos rfl]
  · intro h
    unfold getModelName
    rw [h, if_neg (Ne.symm h09), if_neg (Ne.symm h19), if_neg (Ne.symm h29),
      if_neg (Ne.symm h39), if_neg (Ne.symm h49), if_neg (Ne.symm h59), if_neg (Ne.symm h69),
      if_neg (Ne.symm h79), if_neg (Ne.symm h89), if_pos rfl]
  · intro h
    simp only [supported, List.mem_cons, List.mem_singleton, List.not_mem_nil, or_false,
      not_or] at h
    obtain ⟨g0, g1, g2, g3, g4, g5, g6, g7, g8, g9⟩ := h
    unfold getModelName
    rw [if_neg g0, if_neg g1, if_neg g2, if_neg g3, if_neg g4, if_neg g5, if_neg g6, if_neg g7,
      if_neg g8, if_neg g9]
  · intro hok
    obtain ⟨k1, k2, k3, k4, k5⟩ := probePort_conditions H host s hok
    apply getModelName_ne_unknown
    rw [probePort_success H host s k1 k2 k3 k4 k5]
    exact k2

/-- Witness of C7: the name of an IT8728F. -/
theorem getModelName_spec_witness :
    getModelName it87 { fresh with model := 0x8728 } = "IT8728F" :=
  (getModelName_spec it87 it8728 { fresh with model := 0x8728 } (by decide)).2.2.2.2.2.2.2.1 rfl

/-! ## Fan speed -/

/-- C3: in 16-bit mode, for a channel below 5, with `count = low + (high << 8)` assembled from
the bytes read from `ITE_FAN_TACHOMETER_REG[index]` and `ITE_FAN_TACHOMETER_EXT_REG[index]`,
`readTachometer` returns 0 when `count ≤ 0x3f` or `count ≥ 0xffff`, and otherwise exactly the
integer quotient `(1350000 + count) / (2 * count)`: the single-precision division followed by
the conversion to `SInt32` never yields another integer. -/
theorem readTachometer_16bit (H : Header) (host : Host) (s : IT87x) (index : Nat)
    (hidx : index < 5) (h16 : s.has16bitFanCounter = true) :
    let lo := readByte H host s (H.ITE_FAN_TACHOMETER_REG ⟨index, hidx⟩)
    let hi := readByte H host lo.2 (H.ITE_FAN_TACHOMETER_EXT_REG ⟨index, hidx⟩)
    let count := lo.1 + (hi.1 <<< 8)
    ((count ≤ 0x3f ∨ 0xffff ≤ count) → (readTachometer H host s index).1 = some 0) ∧
    ((0x3f < count ∧ count < 0xffff) →
      (readTachometer H host s index).1 =
        some (((1350000 + count) / (2 * count) : ℕ) : ℤ)) := by
  intro lo hi count
  have h : (readTachometer H host s index).1 =
      if 0x3f < count ∧ count < 0xffff then some (((1350000 + count) / (2 * count) : ℕ) : ℤ)
      else some 0 := readTachometer_eval16 H host s index hidx h16
  constructor
  · intro hc
    rw [h, if_neg (by omega)]
  · intro hc
    rw [h, if_pos hc]

/-- C4: in 8-bit mode, for a channel below 5, with `count` the byte read from
`ITE_FAN_TACHOMETER_REG[index]` and the divisor 2 for channels 2 and up and
`1 << ((d >> (3 * index)) & 0x7)` for channels 0 and 1 (`d` the byte read from the divisor
register), `readTachometer` returns 0 when `count` is 0 or 0xff, and otherwise exactly the
integer quotient `1350000 / (count * divisor)`. -/
theorem readTachometer_8bit (H : Header) (host : Host) (s : IT87x) (index : Nat)
    (hidx : index < 5) (h8 : s.has16bitFanCounter = false) :
    let cnt := readByte H host s (H.ITE_FAN_TACHOMETER_REG ⟨index, hidx⟩)
    let d := readByte H host cnt.2 H.ITE_FAN_TACHOMETER_DIVISOR_REGISTER
    let divisor := if 2 ≤ index then 2 else 1 <<< ((d.1 >>> (3 * index)) &&& 0x7)
    ((cnt.1 = 0 ∨ cnt.1 = 0xff) → (readTachometer H host s index).1 = some 0) ∧
    (¬ (cnt.1 = 0 ∨ cnt.1 = 0xff) →
      (readTachometer H host s index).1 = some ((1350000 / (cnt.1 * divisor) : ℕ) : ℤ)) := by
  intro cnt d divisor
  have h : (readTachometer H host s index).1 =
      if 0 < cnt.1 ∧ cnt.1 < 0xff then
        some ((1350000 /
          (cnt.1 * (if index < 2 then 1 <<< ((d.1 >>> (3 * index)) &&& 0x7) else 2)) : ℕ) : ℤ)
      else some 0 := readTachometer_eval8 H host s index hidx h8
  have hlt : cnt.1 < 256 := readByte_lt H host s _
  have hdiv : (if index < 2 then 1 <<< ((d.1 >>> (3 * index)) &&& 0x7) else 2) = divisor := by
    by_cases h2 : index < 2
    · simp only [divisor, if_pos h2, if_neg (by omega : ¬ 2 ≤ index)]
    · simp only [divisor, if_neg h2, if_pos (by omega : 2 ≤ index)]
  constructor
  · intro hc
    rw [h, if_neg (by omega)]
  · intro hc
    rw [h, if_pos (by omega)]
    simp only [hdiv]

/-- C10: for a channel below 5 `readTachometer` returns a defined, non-negative value that
fits `SInt32`; the 8-bit divisor is a power of two between 1 and 128, so no divisor is zero;
a non-zero reading lies between 10 and 10547 in 16-bit mode and between 41 and 1350000 in
8-bit mode. -/
theorem readTachometer_range (H : Header) (host : Host) (s : IT87x) (index : Nat)
    (hidx : index < 5) :
    let cnt := readByte H host s (H.ITE_FAN_TACHOMETER_REG ⟨index, hidx⟩)
    let d := readByte H host cnt.2 H.ITE_FAN_TACHOMETER_DIVISOR_REGISTER
    let divisor := if index < 2 then 1 <<< ((d.1 >>> (3 * index)) &&& 0x7) else 2
    (∃ k : ℕ, k ≤ 7 ∧ divisor = 2 ^ k) ∧ 1 ≤ divisor ∧ divisor ≤ 128 ∧
    ∃ rpm : ℤ, (readTachometer H host s index).1 = some rpm ∧
      0 ≤ rpm ∧ rpm < 2 ^ 31 ∧
      (s.has16bitFanCounter = true → rpm = 0 ∨ (10 ≤ rpm ∧ rpm ≤ 10547)) ∧
      (s.has16bitFanCounter = false → rpm = 0 ∨ (41 ≤ rpm ∧ rpm ≤ 1350000)) := by
  intro cnt d divisor
  have hpow : ∃ k : ℕ, k ≤ 7 ∧ divisor = 2 ^ k := by
    by_cases h2 : index < 2
    · exact ⟨(d.1 >>> (3 * index)) &&& 0x7, Nat.and_le_right, by
        simp only [divisor, if_pos h2, Nat.one_shiftLeft]⟩
    · exact ⟨1, by norm_num, by simp only [divisor, if_neg h2, pow_one]⟩
  have hdiv : 1 ≤ divisor ∧ divisor ≤ 128 := by
    obtain ⟨k, hk, he⟩ := hpow
    rw [he]
    constructor
    · exact Nat.one_le_two_pow
    · calc 2 ^ k ≤ 2 ^ 7 := Nat.pow_le_pow_right (by norm_num) hk
        _ = 128 := by norm_num
  refine ⟨hpow, hdiv.1, hdiv.2, ?_⟩
  cases h16 : s.has16bitFanCounter
  · have h : (readTachometer H host s index).1 =
        if 0 < cnt.1 ∧ cnt.1 < 0xff then some ((1350000 / (cnt.1 * divisor) : ℕ) : ℤ)
        else some 0 := readTachometer_eval8 H host s index hidx h16
    have hlt : cnt.1 < 256 := readByte_lt H host s _
    by_cases hc : 0 < cnt.1 ∧ cnt.1 < 0xff
    · have hprod : cnt.1 * divisor ≤ 254 * 128 := Nat.mul_le_mul (by omega) hdiv.2
      have hpos : 0 < cnt.1 * divisor := Nat.mul_pos hc.1 hdiv.1
      have hlow : 41 ≤ 1350000 / (cnt.1 * divisor) := by
        rw [Nat.le_div_iff_mul_le hpos]; omega
      have hhigh : 1350000 / (cnt.1 * divisor) ≤ 1350000 := Nat.div_le_self _ _
      refine ⟨((1350000 / (cnt.1 * divisor) : ℕ) : ℤ), ?_, ?_, ?_, ?_, ?_⟩
      · rw [h, if_pos hc]
      · exact Int.natCast_nonneg _
      · have : ((1350000 / (cnt.1 * divisor) : ℕ) : ℤ) ≤ 1350000 := by exact_mod_cast hhigh
        omega
      · intro hf; exact absurd hf (by simp)
      · intro _
        right
        constructor
        · exact_mod_cast hlow
        · exact_mod_cast hhigh
    · refine ⟨0, ?_, le_refl _, by norm_num, fun _ => Or.inl rfl, fun _ => Or.inl rfl⟩
      rw [h, if_neg hc]
  · have h := readTachometer_eval16 H host s index hidx h16
    dsimp only at h
    generalize hcount : (readByte H host s (H.ITE_FAN_TACHOMETER_REG ⟨index, hidx⟩)).1
      + ((readByte H host (readByte H host s (H.ITE_FAN_TACHOMETER_REG ⟨index, hidx⟩)).2
          (H.ITE_FAN_TACHOMETER_EXT_REG ⟨index, hidx⟩)).1 <<< 8) = count at h
    by_cases hc : 0x3f < count ∧ count < 0xffff
    · have hpos : 0 < 2 * count := by omega
      have hlow : 10 ≤ (1350000 + count) / (2 * count) := by
        rw [Nat.le_div_iff_mul_le hpos]; omega
      have hhigh : (1350000 + count) / (2 * count) < 10548 := by
        rw [Nat.div_lt_iff_lt_mul hpos]; omega
      refine ⟨(((1350000 + count) / (2 * count) : ℕ) : ℤ), ?_, ?_, ?_, ?_, ?_⟩
      · rw [h, if_pos hc]
      · exact Int.natCast_nonneg _
      · have : (((1350000 + count) / (2 * count) : ℕ) : ℤ) < 10548 := by exact_mod_cast hhigh
        omega
      · intro _
        right
        constructor
        · exact_mod_cast hlow
        · have : (1350000 + count) / (2 * count) ≤ 10547 := by omega
          exact_mod_cast this
      · intro hf; exact absurd hf (by simp)
    · refine ⟨0, ?_, le_refl _, by norm_num, fun _ => Or.inl rfl, fun _ => Or.inl rfl⟩
      rw [h, if_neg hc]


/-- Witness of C3: channel 0 of a chip whose tachometer registers hold the count 0x0040. -/
theorem readTachometer_16bit_witness :
    (readTachometer it87 (chip 0x8728 true 0x290 (regfile [(0x0d, 0x40), (0x18, 0x00)]))
      { fresh with has16bitFanCounter := true } 0).1 = some 10547 := by
  have h := (readTachometer_16bit it87
    (chip 0x8728 true 0x290 (regfile [(0x0d, 0x40), (0x18, 0x00)]))
    { fresh with has16bitFanCounter := true } 0 (by decide) rfl).2 (by decide)
  rw [h]
  decide

/-- Witness of C4: channel 0, count 0x40, divisor field 2 (divisor 4). -/
theorem readTachometer_8bit_witness :
    (readTachometer it87 (chip 0x8712 true 0x290 (regfile [(0x0d, 0x40), (0x0b, 0x1a)]))
      fresh 0).1 = some 5273 := by
  have h := (readTachometer_8bit it87
    (chip 0x8712 true 0x290 (regfile [(0x0d, 0x40), (0x0b, 0x1a)])) fresh 0
    (by decide) rfl).2 (by decide)
  rw [h]
  decide

/-- Witness of C10: channel 4 of a chip in 8-bit mode. -/
theorem readTachometer_range_witness :
    ∃ rpm : ℤ, (readTachometer it87 (chip 0x8712 true 0x290 (regfile [(0x82, 0xfe)]))
      fresh 4).1 = some rpm ∧ 0 ≤ rpm ∧ rpm < 2 ^ 31 :=
  let ⟨rpm, h, h0, h1, _⟩ :=
    (readTachometer_range it87 (chip 0x8712 true 0x290 (regfile [(0x82, 0xfe)])) fresh 4
      (by decide)).2.2.2
  ⟨rpm, h, h0, h1⟩


/-! ## Voltage and temperature -/

/-- Thousandths of an integer below `2^24` in magnitude round to a finite `float` within the
relative error `2^-24`. -/
theorem f32round_thousandth {p : ℤ} (hp : |p| < 2 ^ (24 : ℕ)) :
    ∃ r : ℚ, f32round ((p : ℚ) / 1000) = some r ∧
      |r - (p : ℚ) / 1000| ≤ |(p : ℚ) / 1000| / 2 ^ (24 : ℕ) := by
  rcases eq_or_ne p 0 with h0 | h0
  · subst h0
    refine ⟨0, ?_, ?_⟩
    · simpa using f32round_intCast (n := 0) (by norm_num)
    · simp
  · have h1 : (1 : ℚ) ≤ |(p : ℚ)| := by
      have : (1 : ℤ) ≤ |p| := Int.one_le_abs h0
      exact_mod_cast this
    have h2 : |(p : ℚ)| < 2 ^ (24 : ℕ) := by exact_mod_cast hp
    have habs : |(p : ℚ) / 1000| = |(p : ℚ)| / 1000 := by
      rw [abs_div]; norm_num
    apply f32round_near
    · rw [habs, le_div_iff₀ (by norm_num)]
      have : 1 / (2 : ℚ) ^ (126 : ℕ) * 1000 ≤ 1 := by norm_num
      linarith
    · rw [habs, div_lt_iff₀ (by norm_num)]
      have : (2 : ℚ) ^ (24 : ℕ) ≤ 2 ^ (127 : ℕ) * 1000 := by norm_num
      linarith

/-- The `float` computed by `readVoltage` when the product of the gains is moderate. -/
theorem readVoltage_eval (H : Header) (host : Host) (s : IT87x) (index : Nat)
    (hidx : index < 9)
    (hgain : |s.voltageGain * s.voltageSpecificGain ⟨index, hidx⟩| ≤ 65536) :
    (readVoltage H host s index).1 =
      f32round ((((((readByte H host s (H.ITE_VOLTAGE_BASE_REG + index)).1 : ℤ) *
        s.voltageGain * s.voltageSpecificGain ⟨index, hidx⟩ : ℤ)) : ℚ) / 1000) ∧
    |((readByte H host s (H.ITE_VOLTAGE_BASE_REG + index)).1 : ℤ) *
        s.voltageGain * s.voltageSpecificGain ⟨index, hidx⟩| < 2 ^ (24 : ℕ) := by
  have hraw := readByte_lt H host s (H.ITE_VOLTAGE_BASE_REG + index)
  set rb := readByte H host s (H.ITE_VOLTAGE_BASE_REG + index) with hrb
  have hp : |(rb.1 : ℤ) * s.voltageGain * s.voltageSpecificGain ⟨index, hidx⟩|
      < 2 ^ (24 : ℕ) := by
    rw [mul_assoc, abs_mul, abs_of_nonneg (Int.natCast_nonneg _)]
    have h0 : (0 : ℤ) ≤ |s.voltageGain * s.voltageSpecificGain ⟨index, hidx⟩| :=
      abs_nonneg _
    have h1 : (rb.1 : ℤ) ≤ 255 := by omega
    have h2 : (0 : ℤ) ≤ (rb.1 : ℤ) := Int.natCast_nonneg _
    have : (rb.1 : ℤ) * |s.voltageGain * s.voltageSpecificGain ⟨index, hidx⟩|
        ≤ 255 * 65536 := mul_le_mul h1 hgain h0 (by norm_num)
    have h24 : (255 : ℤ) * 65536 < 2 ^ (24 : ℕ) := by norm_num
    linarith
  refine ⟨?_, hp⟩
  have htho : f32round (1000 : ℚ) = some (1000 : ℚ) := by
    have := f32round_natCast (a := 1000) (by norm_num)
    simpa using this
  simp only [readVoltage, dif_pos hidx, f32ofInt, ← hrb]
  rw [f32round_intCast hp, htho]
  simp only [Option.some_bind, f32div]
  rw [if_neg (by norm_num)]

/-- C5, amended: for a channel below 9 and gains whose product is at most 65536 in magnitude
(as after every successful probe), `readVoltage` returns the single-precision rounding of
`(rawByte * voltageGain * voltageSpecificGain[i]) / 1000`: a finite `float` within the relative
error `2^-24` of the exact quotient, in general different from it; when the product of the
three factors is 2400 (an IT8728F after its probe, raw byte 200) the reading is
5033165/2097152, the `float` nearest to 2.4. -/
theorem readVoltage_rounded (H : Header) (host : Host) (s : IT87x) (index : Nat)
    (hidx : index < 9)
    (hgain : |s.voltageGain * s.voltageSpecificGain ⟨index, hidx⟩| ≤ 65536) :
    let raw := (readByte H host s (H.ITE_VOLTAGE_BASE_REG + index)).1
    let quotient : ℚ :=
      ((((raw : ℤ) * s.voltageGain * s.voltageSpecificGain ⟨index, hidx⟩ : ℤ)) : ℚ) / 1000
    (readVoltage H host s index).1 = f32round quotient ∧
    (∃ r : ℚ, (readVoltage H host s index).1 = some r ∧
      |r - quotient| ≤ |quotient| / 2 ^ (24 : ℕ)) ∧
    ((raw : ℤ) * s.voltageGain * s.voltageSpecificGain ⟨index, hidx⟩ = 2400 →
      (readVoltage H host s index).1 = some (5033165 / 2097152)) := by
  intro raw quotient
  obtain ⟨hev, hp⟩ := readVoltage_eval H host s index hidx hgain
  have hev' : (readVoltage H host s index).1 = f32round quotient := hev
  refine ⟨hev', ?_, ?_⟩
  · rw [hev']
    exact f32round_thousandth hp
  · intro h2400
    have hq : quotient = (2400 : ℚ) / 1000 := by
      simp only [quotient, h2400]
      norm_num
    rw [hev', hq]
    exact f32round_2400

/-- C5, counterexample: after a successful probe of an IT8728F (`voltageGain` 12, gains 1) the
raw byte 200 reads as 5033165/2097152 = 2.400000095..., the `float` nearest to 2.4, which is
not the exact quotient `200 * 12 * 1 / 1000 = 12/5`. -/
theorem readVoltage_IT8728F_200 :
    (probePort it87 it8728 fresh).1 = true ∧
    probed.model = it87.IT8728F ∧ probed.voltageGain = 12 ∧ probed.voltageSpecificGain 0 = 1 ∧
    (readByte it87 it8728 probed (it87.ITE_VOLTAGE_BASE_REG + 0)).1 = 200 ∧
    (readVoltage it87 it8728 probed 0).1 = some (5033165 / 2097152) ∧
    (readVoltage it87 it8728 probed 0).1 ≠ some ((200 * 12 * 1 : ℚ) / 1000) := by
  have hraw : (readByte it87 it8728 probed (it87.ITE_VOLTAGE_BASE_REG + 0)).1 = 200 := by
    decide
  have hvg : probed.voltageGain = 12 := by decide
  have hsg : probed.voltageSpecificGain 0 = 1 := by decide
  have hev := (readVoltage_eval it87 it8728 probed 0 (by decide) (by decide)).1
  have hval : (readVoltage it87 it8728 probed 0).1 = some (5033165 / 2097152) := by
    rw [hev, hraw, hvg]
    have : probed.voltageSpecificGain ⟨0, by decide⟩ = 1 := hsg
    rw [this]
    have h := f32round_2400
    norm_num at h ⊢
    exact h
  refine ⟨by decide, by decide, hvg, hsg, hraw, hval, ?_⟩
  rw [hval]
  norm_num

/-- Witness of C5 (amended): channel 0 of the probed IT8728F, raw byte 200. -/
theorem readVoltage_rounded_witness :
    (readVoltage it87 it8728 probed 0).1 = some (5033165 / 2097152) :=
  (readVoltage_rounded it87 it8728 probed 0 (by decide) (by decide)).2.2 (by decide)

/-- C6, amended: for every channel (those below 3 included), `readTemperature` returns the
byte that the chip delivers on the first read of the data port after register
`ITE_TEMPERATURE_BASE_REG + index` is selected, zero-extended and unscaled: the result lies
in 0..255 (a register byte of 0xFF yields 255). -/
theorem readTemperature_unsigned (H : Header) (host : Host) (s : IT87x) (index : Nat) :
    (readTemperature H host s index).1 =
      ((host.inb
        (s.trace ++ [Event.outb ((s.address + H.ITE_ADDRESS_REGISTER_OFFSET) % 65536)
          ((H.ITE_TEMPERATURE_BASE_REG + index) % 256)])
        ((s.address + H.ITE_DATA_REGISTER_OFFSET) % 65536) % 256 : ℕ) : ℤ) ∧
    (readTemperature H host s index).1 =
      ((readByte H host s (H.ITE_TEMPERATURE_BASE_REG + index)).1 : ℤ) ∧
    0 ≤ (readTemperature H host s index).1 ∧ (readTemperature H host s index).1 ≤ 255 := by
  have hlt := readByte_lt H host s (H.ITE_TEMPERATURE_BASE_REG + index)
  refine ⟨?_, rfl, ?_, ?_⟩
  · simp [readTemperature, readByte, inb, outb]
  · exact Int.natCast_nonneg _
  · have : (readTemperature H host s index).1
        = ((readByte H host s (H.ITE_TEMPERATURE_BASE_REG + index)).1 : ℤ) := rfl
    rw [this]; omega

/-- C6, counterexample: a temperature register holding 0xFF reads as 255, not as -1, and so
outside of -128..127. -/
theorem readTemperature_0xFF :
    (readByte it87 it8728 probed (it87.ITE_TEMPERATURE_BASE_REG + 0)).1 = 0xFF ∧
    (readTemperature it87 it8728 probed 0).1 = 255 ∧
    (readTemperature it87 it8728 probed 0).1 ≠ -1 ∧
    ¬ (-128 ≤ (readTemperature it87 it8728 probed 0).1 ∧
        (readTemperature it87 it8728 probed 0).1 ≤ 127) := by
  decide

end ITEIT87x
